import Mathlib

/-!
Shallow embedding of the UniversalAPI response-synthesis pipeline:
`app/generator.py` (header parsing and stream demultiplexing),
`app/memory.py` (page-memory store, summarization reuse, link extraction,
relatedness scoring) and `app/routes/content_routes.py` (request handler,
response cache).  External collaborators (the text/image generation models,
SHA-256, the disk) are modelled as oracle parameters; Python strings are
modelled at codepoint granularity via `List Char`, with `str.lower`,
`str.isdigit` and whitespace restricted to ASCII; the float scores of the
relatedness index (integers plus halves) are modelled exactly by `ℚ`.
-/

namespace UniversalAPI

/-! ### Python string primitives -/

/-- ASCII model of Python `str.lower` on one character. -/
def charLower (c : Char) : Char :=
  if 'A' ≤ c ∧ c ≤ 'Z' then Char.ofNat (c.toNat + 32) else c

/-- Model of Python `str.lower` (ASCII range). -/
def pyLower (s : String) : String :=
  (s.toList.map charLower).asString

/-- Model of Python `str.strip` on a character list. -/
def stripL (l : List Char) : List Char :=
  ((l.dropWhile Char.isWhitespace).reverse.dropWhile Char.isWhitespace).reverse

/-- Model of Python `str.strip` with no arguments. -/
def pyStrip (s : String) : String :=
  (stripL s.toList).asString

/-- Split a character list at every character satisfying `p`; adjacent
separators produce empty groups, which callers filter away.  Filtering the
result models both `str.split()` and `re.split` on a character class with
`+`, since both discard the empty pieces. -/
def splitOnP (p : Char → Bool) : List Char → List (List Char)
  | [] => [[]]
  | c :: rest =>
    if p c then [] :: splitOnP p rest
    else
      match splitOnP p rest with
      | [] => [[c]]
      | g :: gs => (c :: g) :: gs

/-- Nonempty maximal runs of characters not satisfying `p`, as strings. -/
def splitTokensBy (p : Char → Bool) (s : String) : List String :=
  ((splitOnP p s.toList).map List.asString).filter (· != "")

/-- Model of Python `str.split()` (whitespace split, empties dropped). -/
def pySplitWs (s : String) : List String :=
  splitTokensBy Char.isWhitespace s

/-- Model of Python `" ".join`. -/
def joinSpace : List String → String
  | [] => ""
  | t :: rest => rest.foldl (fun a b => a ++ " " ++ b) t

/-- Model of Python `"".join`. -/
def joinAll (l : List String) : String :=
  l.foldl (· ++ ·) ""

/-- Model of Python `s[:n]` (codepoint slice). -/
def pyTake (s : String) (n : Nat) : String :=
  (s.toList.take n).asString

/-- List-level starts-with test. -/
def leadsWith : List Char → List Char → Bool
  | [], _ => true
  | _ :: _, [] => false
  | p :: ps, c :: cs => p == c && leadsWith ps cs

/-- Model of Python `str.startswith`. -/
def strStarts (s pat : String) : Bool :=
  leadsWith pat.toList s.toList

/-- Model of Python `str.endswith`. -/
def strEnds (s pat : String) : Bool :=
  leadsWith pat.toList.reverse s.toList.reverse

/-- Substring occurrence at list level. -/
def hasSub : List Char → List Char → Bool
  | [], n => n.isEmpty
  | c :: rest, n => leadsWith n (c :: rest) || hasSub rest n

/-- Model of Python `pat in s` for strings. -/
def strHas (s pat : String) : Bool :=
  hasSub s.toList pat.toList

/-- Model of Python `ch in s` for a single character. -/
def containsChar (s : String) (c : Char) : Bool :=
  s.toList.contains c

/-- Model of Python `str.isdigit`, restricted to ASCII digits.  On such
input `int()` cannot raise, so the `ValueError` branch of the source is
dead in this model. -/
def pyIsdigit (s : String) : Bool :=
  s != "" && s.toList.all Char.isDigit

/-- Value of `int()` on an ASCII digit string. -/
def pyToNat (s : String) : Nat :=
  s.toList.foldl (fun n c => n * 10 + (c.toNat - '0'.toNat)) 0

/-- Model of Python `s.replace(a, b)` for single characters. -/
def pyReplaceChar (s : String) (a b : Char) : String :=
  (s.toList.map (fun c => if c == a then b else c)).asString

/-! ### Insertion-ordered association maps (Python `dict`) -/

/-- Dictionary lookup in an insertion-ordered association list. -/
def lookupA {α : Type} : List (String × α) → String → Option α
  | [], _ => none
  | (k, v) :: rest, key => if k == key then some v else lookupA rest key

/-- Dictionary assignment: an existing key keeps its position, a new key is
appended, exactly as in a Python `dict`. -/
def insertOrdered {α : Type} (m : List (String × α)) (k : String) (v : α) :
    List (String × α) :=
  if (m.map Prod.fst).contains k then
    m.map (fun kv => if kv.1 == k then (k, v) else kv)
  else m ++ [(k, v)]

/-- Deduplication keeping the first occurrence, with an accumulator for the
`seen` set of the source. -/
def dedupSeen : List String → List String → List String
  | [], _ => []
  | x :: xs, seen =>
    if seen.contains x then dedupSeen xs seen else x :: dedupSeen xs (x :: seen)

/-- First-seen-order deduplication. -/
def pyDedup (l : List String) : List String :=
  dedupSeen l []

/-- Stable insertion of `x` into a list sorted descending by `key`: `x` goes
after every element whose key is at least its own, matching the stability of
Python `list.sort(reverse=True)`. -/
def insDesc {α : Type} (key : α → ℚ) (x : α) : List α → List α
  | [] => [x]
  | y :: ys => if key x ≤ key y then y :: insDesc key x ys else x :: y :: ys

/-- Stable descending sort by `key` (model of `list.sort` with
`reverse=True`, which is stable). -/
def sortDesc {α : Type} (key : α → ℚ) (l : List α) : List α :=
  l.foldl (fun acc x => insDesc key x acc) []

/-! ### `app/generator.py` -/

/-- Embeds `_normalize_mime`: default to `text/html` when no `/` is
present, and add `; charset=utf-8` to `text/*` mimes lacking a charset. -/
def normalize_mime (mime : String) : String :=
  let mime := pyStrip mime
  let mime := if mime == "" || !containsChar mime '/' then "text/html" else mime
  let lower := pyLower mime
  if strStarts mime "text/" && !strHas lower "charset" then mime ++ "; charset=utf-8"
  else mime

/-- Embeds `parse_status_and_mime`: extract an HTTP status (default 200)
and a mime from the header line, clamp the status to 200 outside
`[100, 599]`, remap 404 to 418, and normalize the mime. -/
def parse_status_and_mime (first_line : String) : Nat × String :=
  let line := pyStrip first_line
  let sm :=
    if line != "" then
      let parts := pySplitWs line
      if pyIsdigit (parts.headD "") && decide (2 ≤ parts.length) then
        (pyToNat (parts.headD ""), joinSpace parts.tail)
      else (200, line)
    else (200, "text/html")
  let status := sm.1
  let status := if status < 100 || 599 < status then 200 else status
  let status := if status == 404 then 418 else status
  (status, normalize_mime sm.2)

/-- Model of `buffer.split("\n", 1)` when a newline is present. -/
def splitFirstNL (s : String) : String × String :=
  let l := s.toList
  let first := l.takeWhile (· != '\n')
  (first.asString, (l.drop (first.length + 1)).asString)

/-- Loop of the producer in `stream_page_for_path`: accumulate chunks into
`buffer` until a newline appears, parse the text before it as the header
line, emit the remainder and all later chunks as body; a stream exhausted
without a newline yields the default header and the whole buffer as body. -/
def demuxGo : List String → String → Nat × String × List String
  | [], buffer =>
    let sm := parse_status_and_mime ""
    (sm.1, sm.2, if buffer != "" then [buffer] else [])
  | chunk :: rest, buffer =>
    let buffer := buffer ++ chunk
    if containsChar buffer '\n' then
      let fr := splitFirstNL buffer
      let sm := parse_status_and_mime fr.1
      (sm.1, sm.2, (if fr.2 != "" then [fr.2] else []) ++ rest)
    else demuxGo rest buffer

/-- Embeds the header demultiplexing of `stream_page_for_path`: the model
token stream is the given chunk list, and the result is the resolved
(status, mime) pair together with the body fragments. -/
def stream_demux (chunks : List String) : Nat × String × List String :=
  demuxGo chunks ""

/-! ### `app/memory.py` -/

/-- One record of the page-memory store. -/
structure PageEntry where
  summary : String
  links : List String
  last_updated : Nat
  hash : String
deriving Repr, DecidableEq, Inhabited

/-- The page-memory store: an insertion-ordered mapping from path to
record, as a Python dict. -/
abbrev Memory := List (String × PageEntry)

/-- The literal characters `href="/`. -/
def hrefLit : List Char := ['h', 'r', 'e', 'f', '=', '"', '/']

/-- One attempt of the regex `href="(/[^"#?]*)"` at the current position:
after the literal `href="/`, capture the maximal run free of `"`, `#`, `?`,
and require a closing quote.  Backtracking cannot help the regex here,
since only the character right after the maximal run can be a quote. -/
def matchHref (l : List Char) : Option (String × List Char) :=
  if leadsWith hrefLit l then
    let after := l.drop 7
    let run := after.takeWhile (fun c => !(c == '"' || c == '#' || c == '?'))
    match after.drop run.length with
    | '"' :: rem => some (('/' :: run).asString, rem)
    | _ => none
  else none

/-- Scan for successive non-overlapping matches, as `re.findall` does:
advance past a successful match, otherwise move one character.  The fuel
argument only bounds the recursion; `l.length` steps always suffice since
every step consumes at least one character. -/
def findHrefsGo : Nat → List Char → List String
  | 0, _ => []
  | _ + 1, [] => []
  | fuel + 1, c :: rest =>
    match matchHref (c :: rest) with
    | some tr => tr.1 :: findHrefsGo fuel tr.2
    | none => findHrefsGo fuel rest

/-- Embeds `_extract_internal_links_from_html`: all `href="/..."` targets
found by the regex, deduplicated in first-seen order. -/
def extract_internal_links_from_html (html : String) : List String :=
  pyDedup (findHrefsGo html.toList.length html.toList)

/-- The `text` of `summarize_page_with_ai`: the stripped body, truncated
to `max_chars` characters when longer. -/
def truncatedText (body : String) (max_chars : Nat := 6000) : String :=
  let text := pyStrip body
  if max_chars < text.length then pyTake text max_chars else text

/-- Embeds `summarize_page_with_ai`.  The external model call
(`generate_text_response`) is the oracle `gen`, which either returns the
summary text or raises; the second component records the page texts the
oracle was invoked with.  A raised error is caught and replaced by the
first 800 characters of the text, with `" ..."` appended when the text is
longer. -/
def summarize_page_with_ai (gen : String → Except String String)
    (body : String) (max_chars : Nat := 6000) : String × List String :=
  let text := truncatedText body max_chars
  if text == "" then ("", [])
  else
    match gen text with
    | .ok summary => (pyStrip summary, [text])
    | .error _ =>
      (pyTake text 800 ++ (if 800 < text.length then " ..." else ""), [text])

/-- Embeds `remember_page`.  `sha` abstracts `hashlib.sha256` over the
UTF-8 coding of the body; `gen` is the summarization oracle; `now` the
timestamp.  Returns the updated store and the list of oracle invocations.
Non-text content is ignored; a stored record with matching hash and
non-empty summary short-circuits summarization. -/
def remember_page (sha : String → String) (gen : String → Except String String)
    (mem : Memory) (url_path body content_type : String) (now : Nat) :
    Memory × List String :=
  let ct_lower := pyLower content_type
  if !(strStarts ct_lower "text/" || strStarts ct_lower "application/json") then
    (mem, [])
  else
    let body_hash := sha body
    let links :=
      if strStarts ct_lower "text/html" then extract_internal_links_from_html body
      else []
    let old_entry := lookupA mem url_path
    let sc :=
      match old_entry with
      | some e =>
        if e.hash == body_hash && e.summary != "" then (e.summary, ([] : List String))
        else summarize_page_with_ai gen body
      | none => summarize_page_with_ai gen body
    (insertOrdered mem url_path ⟨sc.1, links, now, body_hash⟩, sc.2)

/-- Tokens of a path: split on `/` and `-`, lower-cased, empty pieces
dropped (the candidate-side tokenization of `get_related_memory`). -/
def pathTokens (s : String) : List String :=
  splitTokensBy (fun c => c == '/' || c == '-') (pyLower s)

/-- Query-side token set: `pathTokens` minus the stop-set, deduplicated
(the Python set comprehension). -/
def queryTokens (url_path : String) : List String :=
  pyDedup ((pathTokens url_path).filter
    (fun t => !(t == "api" || t == "data" || t == "json")))

/-- Count of a string in a list. -/
def countOcc (x : String) (l : List String) : Nat :=
  (l.filter (· == x)).length

/-- Count held by the backlink dictionary for one key, zero when absent
(`backlinks.get(link, 0)`). -/
def getCnt (d : List (String × Nat)) (k : String) : Nat :=
  (lookupA d k).getD 0

/-- All links stored anywhere in the memory, in store order. -/
def allLinks (mem : Memory) : List String :=
  (mem.map (fun pe => pe.2.links)).flatten

/-- Increment of one key of the backlink dictionary
(`backlinks[link] = backlinks.get(link, 0) + 1`). -/
def incr (d : List (String × Nat)) (k : String) : List (String × Nat) :=
  insertOrdered d k (getCnt d k + 1)

/-- Embeds the backlink precomputation of `get_related_memory`: for every
stored record, for every link in it, increment the link's count. -/
def buildBacklinks (mem : Memory) : List (String × Nat) :=
  mem.foldl (fun d pe => pe.2.links.foldl incr d) []

/-- Default record used to make the always-successful `page_memory[path]`
indexing total. -/
def defaultEntry : PageEntry := ⟨"", [], 0, ""⟩

/-- Embeds `get_related_memory`: token-overlap score plus half the backlink
count of the query path, candidates `/` and the query path skipped, scores
below or at zero dropped, stable descending sort, first `limit` pairs. -/
def get_related_memory (mem : Memory) (url_path : String) (limit : Nat := 5) :
    List (String × PageEntry) :=
  if mem.isEmpty then []
  else
    let tokens := queryTokens url_path
    let backlinks := buildBacklinks mem
    let backlink_score : ℚ := ((getCnt backlinks url_path : Nat) : ℚ)
    let scores : List (ℚ × String) :=
      mem.filterMap (fun pe =>
        if pe.1 == "/" || pe.1 == url_path then none
        else
          let other_tokens := pathTokens pe.1
          let token_score : ℚ := ((tokens.filter (fun t => other_tokens.contains t)).length : Nat)
          let score := token_score + (1 / 2 : ℚ) * backlink_score
          if 0 < score then some (score, pe.1) else none)
    let sorted := sortDesc (fun x => x.1) scores
    (sorted.take limit).map (fun sp => (sp.2, (lookupA mem sp.2).getD defaultEntry))

/-! ### Claim-side definitions, written from the specification's words -/

/-- Score of a candidate as the specification words it: the size of the
intersection of the stop-filtered query tokens with the candidate's tokens,
plus half the number of stored links equal to the query path. -/
def claimScore (mem : Memory) (url_path p : String) : ℚ :=
  (((queryTokens url_path).filter (fun t => (pathTokens p).contains t)).length : Nat)
    + (1 / 2 : ℚ) * ((countOcc url_path (allLinks mem) : Nat) : ℚ)

/-- Relatedness as the specification words it: score every stored candidate
other than `/` and the query path, keep exactly those with positive score,
sort descending by score, return the first `limit` (path, record) pairs. -/
def relatedSpec (mem : Memory) (url_path : String) (limit : Nat) :
    List (String × PageEntry) :=
  let kept := mem.filter (fun pe =>
    pe.1 != "/" && pe.1 != url_path && decide (0 < claimScore mem url_path pe.1))
  let scored := kept.map (fun pe => (claimScore mem url_path pe.1, pe.1, pe.2))
  ((sortDesc (fun t => t.1) scored).take limit).map (fun t => (t.2.1, t.2.2))

/-- Structured-mime test as the specification words it: a substring match
on `json` or `xml`. -/
def claim_structured_mime (media_type : String) : Bool :=
  strHas media_type "json" || strHas media_type "xml"

/-- Status sanitization as the specification words it: a status in
`[100, 599]` other than 404 passes through, 404 becomes 418, anything
outside the range becomes 200. -/
def claimSanitize (n : Nat) : Nat :=
  if 100 ≤ n ∧ n ≤ 599 then (if n = 404 then 418 else n) else 200

/-- Qualifying-target test at one position, written from the claim's
words: after the literal `href="/`, the target runs up to the next quote
(so it contains no second quote) and qualifies when it contains neither
`#` nor `?` and the closing quote exists.  Returns the target and the text
after the closing quote. -/
def claimHrefAt (l : List Char) : Option (String × List Char) :=
  if leadsWith hrefLit l then
    let after := l.drop 7
    let run := after.takeWhile (fun c => c != '"')
    if decide (run.length < after.length)
        && run.all (fun c => !(c == '#' || c == '?')) then
      some (('/' :: run).asString, after.drop (run.length + 1))
    else none
  else none

/-- Left-to-right scan collecting every qualifying occurrence, written
from the claim's words; after a match the scan resumes past the closing
quote (occurrences are collected non-overlapping, left to right).  The
fuel only bounds the recursion; `l.length` steps always suffice. -/
def claimHrefScanGo : Nat → List Char → List String
  | 0, _ => []
  | _ + 1, [] => []
  | fuel + 1, c :: rest =>
    match claimHrefAt (c :: rest) with
    | some tr => tr.1 :: claimHrefScanGo fuel tr.2
    | none => claimHrefScanGo fuel rest

/-- All qualifying targets of a body, in order of first appearance of each
occurrence. -/
def claimHrefScan (html : String) : List String :=
  claimHrefScanGo html.toList.length html.toList

/-- Deduplication preserving first-seen order, written from the claim's
words: walk the list and keep each target the first time it appears. -/
def claimDedupFirst (l : List String) : List String :=
  l.foldl (fun acc x => if acc.contains x then acc else acc ++ [x]) []

/-! ### `app/state.py` and `app/routes/content_routes.py` -/

/-- The response cache of `app/state.py`: request key to (mime, body). -/
abbrev Cache := List (String × (String × String))

/-- The image cache of `app/state.py`: path to PNG bytes. -/
abbrev ImageCache := List (String × List Nat)

/-- HTTP methods the catch-all route accepts. -/
inductive Method where
  | GET
  | POST
deriving DecidableEq, Repr

/-- Responses the handler can build.  `response` is a Starlette `Response`
(whole body known up front, status defaulting to 200 at call sites that
omit it); `streamingResponse` is a `StreamingResponse`, which delivers its
fragments incrementally. -/
inductive AppResponse where
  | response (content : String) (mediaType : String) (status : Nat)
  | htmlResponse (content : String) (status : Nat)
  | streamingResponse (chunks : List String) (mediaType : String) (status : Nat)
  | imageResponse (content : List Nat) (status : Nat)
  | emptyResponse (status : Nat)
deriving DecidableEq, Repr

/-- Whether a response delivers its body incrementally to the client. -/
def AppResponse.isStreaming : AppResponse → Bool
  | .streamingResponse .. => true
  | _ => false

/-- Embeds the mime classification of `handle_request` that selects the
do-not-stream branch for structured formats. -/
def is_structured_mime (media_type : String) : Bool :=
  strStarts media_type "application/json" || strEnds media_type "json"
    || strEnds media_type "xml" || strStarts media_type "text/xml"
    || strHas media_type "xml"

/-- Stand-in for the large static `ERROR_HTML` template with its
`error_code` placeholder substituted; no claim depends on its text. -/
def errorPage (error_msg : String) : String :=
  "ERROR_PAGE: " ++ error_msg

/-- Embeds the `/random` route: demultiplex the model stream and pass the
body fragments through a `StreamingResponse`. -/
def random_page (genChunks : List String) : AppResponse :=
  let smb := stream_demux genChunks
  .streamingResponse smb.2.2 smb.2.1 smb.1

/-- Embeds the catch-all `handle_request` of `content_routes.py`.  The
model stream is the oracle `genOutcome` (`error` when
`stream_page_for_path` raises, otherwise the chunk list — the body
iterator itself never raises, since the producer swallows mid-stream
failures in its `finally`); `disk` and `pngOutcome` abstract the image
disk cache and `generate_png_for_path`.  Prompt construction
(`optional_data`, mood) feeds only the external model and is elided.
Returns the response, the content cache, and the image cache. -/
def handle_request (method : Method) (url_path query : String)
    (cache : Cache) (image_cache : ImageCache)
    (disk : String → Option (List Nat))
    (genOutcome : Except String (List String))
    (pngOutcome : List Nat × Nat) : AppResponse × Cache × ImageCache :=
  if url_path == "favicon.ico" then (.emptyResponse 504, cache, image_cache)
  else
    let cache_key := url_path ++ "?" ++ query
    match (if method == .GET then lookupA cache cache_key else none) with
    | some ctb => (.response ctb.2 ctb.1 200, cache, image_cache)
    | none =>
      if strEnds (pyLower url_path) ".png" then
        match lookupA image_cache url_path with
        | some img_bytes => (.imageResponse img_bytes 200, cache, image_cache)
        | none =>
          match disk (pyReplaceChar url_path '/' '_') with
          | some img_bytes =>
            (.imageResponse img_bytes 200, cache, insertOrdered image_cache url_path img_bytes)
          | none =>
            let bs := pngOutcome
            if bs.2 == 200 && bs.1 != [] then
              (.imageResponse bs.1 bs.2, cache, insertOrdered image_cache url_path bs.1)
            else (.imageResponse bs.1 bs.2, cache, image_cache)
      else
        match genOutcome with
        | .error e =>
          (.htmlResponse (errorPage ("AI Generation Error: " ++ e)) 500, cache, image_cache)
        | .ok chunks =>
          let smb := stream_demux chunks
          let full_body := joinAll smb.2.2
          if is_structured_mime smb.2.1 then
            let cache1 :=
              if method == .GET then insertOrdered cache cache_key (smb.2.1, full_body)
              else cache
            (.response full_body smb.2.1 smb.1, cache1, image_cache)
          else
            let cache1 :=
              if method == .GET then insertOrdered cache cache_key (smb.2.1, full_body)
              else cache
            (.response full_body smb.2.1 smb.1, cache1, image_cache)

/-! ### Basic lemmas -/

theorem foldl_append_eq (l : List String) :
    ∀ a : String, l.foldl (· ++ ·) a = a ++ l.foldl (· ++ ·) "" := by
  induction l with
  | nil => intro a; simp
  | cons x xs ih =>
    intro a
    simp only [List.foldl_cons]
    rw [ih (a ++ x), ih ("" ++ x), String.empty_append, String.append_assoc]

theorem joinAll_cons (c : String) (l : List String) :
    joinAll (c :: l) = c ++ joinAll l := by
  unfold joinAll
  simp only [List.foldl_cons]
  rw [foldl_append_eq l ("" ++ c), String.empty_append]

theorem toList_append (a b : String) : (a ++ b).toList = a.toList ++ b.toList :=
  String.data_append a b

theorem containsChar_append (a b : String) (c : Char) :
    containsChar (a ++ b) c = (containsChar a c || containsChar b c) := by
  unfold containsChar
  rw [toList_append]
  simp [List.contains, List.elem_eq_mem, List.mem_append]

/-! ### C3: the concrete `200 application/json` scenario -/

/-- Claim C3 fails on the code: `_normalize_mime` adds a charset only to
`text/*` mimes, so parsing the header line `200 application/json` yields
the mime `application/json` without the claimed `; charset=utf-8`. -/
theorem claim_C3_counterexample :
    parse_status_and_mime "200 application/json" = (200, "application/json") ∧
    parse_status_and_mime "200 application/json" ≠
      (200, "application/json; charset=utf-8") := by
  constructor
  · decide
  · decide

/-- Claim C3 as amended: the header line `200 application/json` followed by
the body gives status 200, mime `application/json` (no charset, since the
charset is appended only to `text/*` mimes), and the body is delivered
exactly, with no trimming of internal whitespace. -/
theorem claim_C3_amended :
    stream_demux ["200 application/json\n\x7b\"a\":1\x7d"] =
      (200, "application/json", ["\x7b\"a\":1\x7d"]) := by
  decide

/-! ### C5: general header-line parsing -/

/-- The source's two sequential status fixups (range clamp, then the 404
remap) coincide with the specification's single case split. -/
theorem sanitize_seq_eq (n : Nat) :
    (if (if n < 100 || 599 < n then 200 else n) == 404 then 418
     else (if n < 100 || 599 < n then 200 else n)) = claimSanitize n := by
  unfold claimSanitize
  rcases Nat.lt_or_ge n 100 with h1 | h1
  · rw [if_neg (by omega : ¬(100 ≤ n ∧ n ≤ 599))]
    have hc : (decide (n < 100) || decide (599 < n)) = true := by simp [h1]
    simp [hc]
  · rcases Nat.lt_or_ge 599 n with h2 | h2
    · rw [if_neg (by omega : ¬(100 ≤ n ∧ n ≤ 599))]
      have hc : (decide (n < 100) || decide (599 < n)) = true := by simp [h2]
      simp [hc]
    · rw [if_pos (by omega : 100 ≤ n ∧ n ≤ 599)]
      have hc : (decide (n < 100) || decide (599 < n)) = false := by
        simp
        omega
      simp only [hc, Bool.false_eq_true, if_false]
      by_cases h3 : n = 404
      · simp [h3]
      · have hb : (n == 404) = false := by simpa using h3
        simp [hb, h3]

/-- Claim C5: for a header line whose first whitespace token is purely
numeric and followed by at least one more token, parsing returns the
sanitized status (identity on `[100,599]` minus 404, 418 for 404, 200
outside the range) together with the normalized remaining mime string. -/
theorem claim_C5_header_parsing (first_line : String)
    (hlen : 2 ≤ (pySplitWs (pyStrip first_line)).length)
    (hdig : pyIsdigit ((pySplitWs (pyStrip first_line)).headD "") = true) :
    parse_status_and_mime first_line =
      (claimSanitize (pyToNat ((pySplitWs (pyStrip first_line)).headD "")),
       normalize_mime (joinSpace (pySplitWs (pyStrip first_line)).tail)) := by
  have hstr : (pyStrip first_line != "") = true := by
    rw [bne_iff_ne]
    intro h
    rw [h] at hlen
    have h0 : pySplitWs "" = [] := by decide
    rw [h0] at hlen
    simp at hlen
  have hcond : (pyIsdigit ((pySplitWs (pyStrip first_line)).headD "")
      && decide (2 ≤ (pySplitWs (pyStrip first_line)).length)) = true := by
    rw [Bool.and_eq_true]
    exact ⟨hdig, decide_eq_true hlen⟩
  simp only [parse_status_and_mime, hstr, hcond, if_true]
  exact congrArg (fun s => (s, _)) (sanitize_seq_eq _)

/-- Witness for C5 at the header line `201 application/json; charset=utf-8`. -/
theorem claim_C5_witness :
    parse_status_and_mime "201 application/json; charset=utf-8" =
      (claimSanitize (pyToNat ((pySplitWs (pyStrip "201 application/json; charset=utf-8")).headD "")),
       normalize_mime (joinSpace (pySplitWs (pyStrip "201 application/json; charset=utf-8")).tail)) :=
  claim_C5_header_parsing "201 application/json; charset=utf-8" (by decide) (by decide)

/-! ### C7: header-less streams -/

theorem demuxGo_no_nl (chunks : List String) :
    ∀ buffer : String,
    (∀ c ∈ chunks, containsChar c '\n' = false) →
    containsChar buffer '\n' = false →
    demuxGo chunks buffer =
      (200, "text/html; charset=utf-8",
        if (buffer ++ joinAll chunks) != "" then [buffer ++ joinAll chunks] else []) := by
  induction chunks with
  | nil =>
    intro buffer _ _
    have hp : parse_status_and_mime "" = (200, "text/html; charset=utf-8") := by decide
    simp [demuxGo, hp, joinAll, String.append_empty]
  | cons c rest ih =>
    intro buffer h hb
    have hc : containsChar c '\n' = false := h c (List.mem_cons_self c rest)
    have hbc : containsChar (buffer ++ c) '\n' = false := by
      rw [containsChar_append, hb, hc]
      rfl
    simp only [demuxGo, hbc, Bool.false_eq_true, if_false]
    rw [ih (buffer ++ c) (fun x hx => h x (List.mem_cons_of_mem c hx)) hbc,
      joinAll_cons, ← String.append_assoc]

/-- Claim C7: a fragment sequence exhausted without ever containing a
newline demultiplexes to the single default header (200,
`text/html; charset=utf-8`), and the concatenation of the delivered body
fragments is the concatenation of the whole input. -/
theorem claim_C7_headerless_stream (chunks : List String)
    (h : ∀ c ∈ chunks, containsChar c '\n' = false) :
    (stream_demux chunks).1 = 200 ∧
    (stream_demux chunks).2.1 = "text/html; charset=utf-8" ∧
    joinAll (stream_demux chunks).2.2 = joinAll chunks := by
  have h0 : containsChar "" '\n' = false := by decide
  have hgo := demuxGo_no_nl chunks "" h h0
  unfold stream_demux
  rw [hgo]
  refine ⟨rfl, rfl, ?_⟩
  simp only [String.empty_append]
  by_cases hj : joinAll chunks = ""
  · have hb : (joinAll chunks != "") = false := by simp [hj]
    simp only [hb, Bool.false_eq_true, if_false]
    rw [hj]
    rfl
  · have hb : (joinAll chunks != "") = true := by simpa using hj
    simp only [hb, if_true]
    rw [joinAll_cons, show joinAll ([] : List String) = "" from rfl,
      String.append_empty]

/-- Witness for C7 on the two newline-free fragments `abc`, `def`. -/
theorem claim_C7_witness :
    (stream_demux ["abc", "def"]).1 = 200 ∧
    (stream_demux ["abc", "def"]).2.1 = "text/html; charset=utf-8" ∧
    joinAll (stream_demux ["abc", "def"]).2.2 = joinAll ["abc", "def"] :=
  claim_C7_headerless_stream ["abc", "def"] (by decide)

/-! ### Association-map lemmas -/

theorem lookupA_cons {α : Type} (k0 : String) (v0 : α) (rest : List (String × α))
    (key : String) :
    lookupA ((k0, v0) :: rest) key = if k0 == key then some v0 else lookupA rest key := rfl

theorem lookupA_replace_ne {α : Type} (k : String) (v : α) (k' : String)
    (hne : k' ≠ k) (m : List (String × α)) :
    lookupA (m.map (fun kv => if kv.1 == k then (k, v) else kv)) k' = lookupA m k' := by
  induction m with
  | nil => rfl
  | cons kv rest ih =>
    obtain ⟨k0, v0⟩ := kv
    simp only [List.map_cons]
    by_cases h0 : k0 = k
    · subst h0
      rw [show (if ((k0, v0).1 == k0) = true then (k0, v) else (k0, v0)) = (k0, v) from
        if_pos (by simp), lookupA_cons, lookupA_cons,
        if_neg (by simp; exact fun h => hne h.symm),
        if_neg (by simp; exact fun h => hne h.symm)]
      exact ih
    · rw [show (if ((k0, v0).1 == k) = true then (k, v) else (k0, v0)) = (k0, v0) from
        if_neg (by simp [h0]), lookupA_cons, lookupA_cons]
      by_cases h1 : k0 = k'
      · rw [if_pos (by simp [h1]), if_pos (by simp [h1])]
      · rw [if_neg (by simp [h1]), if_neg (by simp [h1])]
        exact ih

theorem lookupA_replace_self {α : Type} (k : String) (v : α)
    (m : List (String × α)) (hk : (m.map Prod.fst).contains k = true) :
    lookupA (m.map (fun kv => if kv.1 == k then (k, v) else kv)) k = some v := by
  induction m with
  | nil => simp [List.contains, List.elem_eq_mem] at hk
  | cons kv rest ih =>
    obtain ⟨k0, v0⟩ := kv
    simp only [List.map_cons]
    by_cases h0 : k0 = k
    · subst h0
      rw [show (if ((k0, v0).1 == k0) = true then (k0, v) else (k0, v0)) = (k0, v) from
        if_pos (by simp), lookupA_cons, if_pos (by simp)]
    · rw [show (if ((k0, v0).1 == k) = true then (k, v) else (k0, v0)) = (k0, v0) from
        if_neg (by simp [h0]), lookupA_cons, if_neg (by simp [h0])]
      apply ih
      have hm : k ∈ List.map Prod.fst ((k0, v0) :: rest) := by
        simpa [List.contains, List.elem_eq_mem] using hk
      simp only [List.map_cons, List.mem_cons] at hm
      rcases hm with h | h
      · exact absurd h.symm h0
      · simp [List.contains, List.elem_eq_mem, h]

theorem lookupA_append {α : Type} (m m2 : List (String × α)) (k : String) :
    lookupA (m ++ m2) k =
      (match lookupA m k with
       | some w => some w
       | none => lookupA m2 k) := by
  induction m with
  | nil => rfl
  | cons kv rest ih =>
    obtain ⟨k0, v0⟩ := kv
    rw [List.cons_append, lookupA_cons, lookupA_cons]
    by_cases h0 : k0 = k
    · rw [if_pos (by simp [h0]), if_pos (by simp [h0])]
    · rw [if_neg (by simp [h0]), if_neg (by simp [h0])]
      exact ih

theorem lookupA_eq_none_of_not_contains {α : Type} (m : List (String × α))
    (k : String) (hk : (m.map Prod.fst).contains k = false) :
    lookupA m k = none := by
  induction m with
  | nil => rfl
  | cons kv rest ih =>
    obtain ⟨k0, v0⟩ := kv
    have hm : ¬ k ∈ List.map Prod.fst ((k0, v0) :: rest) := by
      intro h
      rw [show ((List.map Prod.fst ((k0, v0) :: rest)).contains k) = true from by
        simpa [List.contains, List.elem_eq_mem] using h] at hk
      cases hk
    simp only [List.map_cons, List.mem_cons] at hm
    push_neg at hm
    rw [lookupA_cons, if_neg (by simp; exact fun h => hm.1 h.symm)]
    apply ih
    by_cases hc : (List.map Prod.fst rest).contains k
    · exfalso
      exact hm.2 (by simpa [List.contains, List.elem_eq_mem] using hc)
    · simpa using hc

theorem lookupA_insertOrdered {α : Type} (m : List (String × α)) (k : String)
    (v : α) (k' : String) :
    lookupA (insertOrdered m k v) k' = if k' = k then some v else lookupA m k' := by
  unfold insertOrdered
  by_cases hk : (m.map Prod.fst).contains k
  · simp only [hk, if_true]
    by_cases he : k' = k
    · subst he
      rw [lookupA_replace_self k' v m hk, if_pos rfl]
    · rw [lookupA_replace_ne k v k' he m, if_neg he]
  · have hk' : (m.map Prod.fst).contains k = false := by simpa using hk
    simp only [hk', Bool.false_eq_true, if_false]
    rw [lookupA_append]
    by_cases he : k' = k
    · subst he
      rw [lookupA_eq_none_of_not_contains m k' hk']
      simp [lookupA_cons]
    · rw [if_neg he]
      cases hl : lookupA m k'
      · rw [lookupA_cons, if_neg (by simp; exact fun h => he h.symm)]
        rfl
      · rfl

theorem lookupA_insert_self {α : Type} (m : List (String × α)) (k : String) (v : α) :
    lookupA (insertOrdered m k v) k = some v := by
  rw [lookupA_insertOrdered, if_pos rfl]

theorem lookupA_of_mem_nodup {α : Type} (m : List (String × α)) (k : String)
    (v : α) : (k, v) ∈ m → (m.map Prod.fst).Nodup → lookupA m k = some v := by
  induction m with
  | nil => intro hm _; cases hm
  | cons kv rest ih =>
    intro hm hnd
    obtain ⟨k0, v0⟩ := kv
    simp only [List.map_cons] at hnd
    rcases List.nodup_cons.mp hnd with ⟨hnotin, hnd2⟩
    rcases List.mem_cons.mp hm with h | h
    · have hk : k = k0 := congrArg Prod.fst h
      have hv : v = v0 := congrArg Prod.snd h
      rw [hk, hv, lookupA_cons, if_pos (by simp)]
    · have hne : k0 ≠ k := by
        intro he
        subst he
        exact hnotin (by simpa using List.mem_map_of_mem Prod.fst h)
      rw [lookupA_cons, if_neg (by simp [hne])]
      exact ih h hnd2

/-! ### C6: summarization truncation and fallback -/

theorem append_ne_empty_left (a b : String) (ha : a ≠ "") : a ++ b ≠ "" := by
  intro h
  apply ha
  apply String.ext
  have := congrArg String.data h
  rw [String.data_append] at this
  exact (List.append_eq_nil.mp this).1

theorem pyTake_ne_empty (t : String) (n : Nat) (ht : t ≠ "") (hn : 0 < n) :
    pyTake t n ≠ "" := by
  intro h
  apply ht
  apply String.ext
  have := congrArg String.data h
  unfold pyTake at this
  have hl : t.toList.take n = [] := this
  rcases List.take_eq_nil_iff.mp hl with h1 | h1
  · omega
  · exact h1

/-- Claim C6 fails on the code: with the body `" x"` (leading blank) and a
failing summarizer, the external oracle is invoked with the stripped text
`"x"`, not with the body truncated to 6000 characters, and the fallback
summary is `"x"`, which is neither the first 800 characters of the body nor
carries an ellipsis marker. -/
theorem claim_C6_counterexample :
    summarize_page_with_ai (fun _ => Except.error "boom") " x" = ("x", ["x"]) ∧
    ("x" : String) ≠ pyTake " x" 6000 ∧
    ("x" : String) ≠ pyTake " x" 800 ++ " ..." := by
  refine ⟨by decide, by decide, by decide⟩

/-- Claim C6 as amended: whenever a summary must be generated, the external
summarizer is invoked exactly once, with the stripped body truncated to its
first 6000 characters; if it fails, the summary becomes the first 800
characters of that stripped text, with the marker `" ..."` appended exactly
when the stripped text exceeds 800 characters; the failure is swallowed
(the embedding is total and returns the fallback). -/
theorem claim_C6_amended (gen : String → Except String String) (body : String)
    (h : truncatedText body ≠ "") :
    (summarize_page_with_ai gen body).2 = [truncatedText body] ∧
    (∀ e, gen (truncatedText body) = Except.error e →
      summarize_page_with_ai gen body =
        (pyTake (truncatedText body) 800 ++
          (if 800 < (truncatedText body).length then " ..." else ""),
         [truncatedText body])) := by
  have hb : (truncatedText body == "") = false := by simpa using h
  constructor
  · unfold summarize_page_with_ai
    simp only [hb, Bool.false_eq_true, if_false]
    cases hg : gen (truncatedText body) <;> simp [hg]
  · intro e hg
    unfold summarize_page_with_ai
    simp only [hb, Bool.false_eq_true, if_false, hg]

/-- Witness for the amended C6 at the body `" hello "` with a failing
summarizer. -/
theorem claim_C6_witness :
    summarize_page_with_ai (fun _ => Except.error "x") " hello " =
      (pyTake (truncatedText " hello ") 800 ++
        (if 800 < (truncatedText " hello ").length then " ..." else ""),
       [truncatedText " hello "]) :=
  (claim_C6_amended (fun _ => Except.error "x") " hello " (by decide)).2 "x" rfl

/-! ### C4: summarization happens at most once for identical bodies -/

theorem summarize_calls_le (gen : String → Except String String) (body : String) :
    (summarize_page_with_ai gen body).2.length ≤ 1 := by
  unfold summarize_page_with_ai
  by_cases ht : (truncatedText body == "") = true
  · simp [ht]
  · simp only [ht, Bool.false_eq_true, if_false]
    cases hg : gen (truncatedText body) <;> simp

theorem summarize_nonempty (gen : String → Except String String) (body : String)
    (hgen : ∀ t s, gen t = Except.ok s → pyStrip s ≠ "")
    (htext : truncatedText body ≠ "") :
    (summarize_page_with_ai gen body).1 ≠ "" := by
  have hb : (truncatedText body == "") = false := by simpa using htext
  unfold summarize_page_with_ai
  simp only [hb, Bool.false_eq_true, if_false]
  cases hg : gen (truncatedText body) with
  | error e =>
    simp only []
    exact append_ne_empty_left _ _ (pyTake_ne_empty _ 800 htext (by omega))
  | ok s =>
    simp only []
    exact hgen _ s hg

theorem summarize_empty_text (gen : String → Except String String) (body : String)
    (htext : truncatedText body = "") :
    summarize_page_with_ai gen body = ("", []) := by
  have hb : (truncatedText body == "") = true := by simpa using htext
  unfold summarize_page_with_ai
  simp only [hb, if_true]

theorem remember_html_miss (sha : String → String)
    (gen : String → Except String String) (mem : Memory)
    (path body : String) (now : Nat) (hlk : lookupA mem path = none) :
    remember_page sha gen mem path body "text/html" now =
      (insertOrdered mem path
        ⟨(summarize_page_with_ai gen body).1, extract_internal_links_from_html body,
          now, sha body⟩,
       (summarize_page_with_ai gen body).2) := by
  simp only [remember_page, hlk,
    show (!(strStarts (pyLower "text/html") "text/"
      || strStarts (pyLower "text/html") "application/json")) = false from by decide,
    Bool.false_eq_true, if_false,
    show (strStarts (pyLower "text/html") "text/html") = true from by decide, if_true]

theorem remember_html_hit_fresh (sha : String → String)
    (gen : String → Except String String) (mem : Memory)
    (path body : String) (now : Nat) (e : PageEntry)
    (hlk : lookupA mem path = some e)
    (hc : (e.hash == sha body && e.summary != "") = true) :
    remember_page sha gen mem path body "text/html" now =
      (insertOrdered mem path
        ⟨e.summary, extract_internal_links_from_html body, now, sha body⟩, []) := by
  simp only [remember_page, hlk,
    show (!(strStarts (pyLower "text/html") "text/"
      || strStarts (pyLower "text/html") "application/json")) = false from by decide,
    Bool.false_eq_true, if_false,
    show (strStarts (pyLower "text/html") "text/html") = true from by decide, if_true,
    hc]

theorem remember_html_hit_stale (sha : String → String)
    (gen : String → Except String String) (mem : Memory)
    (path body : String) (now : Nat) (e : PageEntry)
    (hlk : lookupA mem path = some e)
    (hc : (e.hash == sha body && e.summary != "") = false) :
    remember_page sha gen mem path body "text/html" now =
      (insertOrdered mem path
        ⟨(summarize_page_with_ai gen body).1, extract_internal_links_from_html body,
          now, sha body⟩,
       (summarize_page_with_ai gen body).2) := by
  simp only [remember_page, hlk,
    show (!(strStarts (pyLower "text/html") "text/"
      || strStarts (pyLower "text/html") "application/json")) = false from by decide,
    Bool.false_eq_true, if_false,
    show (strStarts (pyLower "text/html") "text/html") = true from by decide, if_true,
    hc]

theorem remember_second (sha : String → String)
    (gen : String → Except String String) (m1 : Memory)
    (path body : String) (t1 t2 : Nat) (s1 : String) (L : List String)
    (hs1 : s1 = "" → truncatedText body = "") :
    (remember_page sha gen (insertOrdered m1 path ⟨s1, L, t1, sha body⟩)
        path body "text/html" t2).2 = [] ∧
    (lookupA (remember_page sha gen (insertOrdered m1 path ⟨s1, L, t1, sha body⟩)
        path body "text/html" t2).1 path).map PageEntry.summary = some s1 := by
  have hl1 : lookupA (insertOrdered m1 path ⟨s1, L, t1, sha body⟩) path =
      some ⟨s1, L, t1, sha body⟩ := lookupA_insert_self ..
  by_cases hs : s1 = ""
  · have hsum : summarize_page_with_ai gen body = ("", []) :=
      summarize_empty_text gen body (hs1 hs)
    have hc2 : ((⟨s1, L, t1, sha body⟩ : PageEntry).hash == sha body
        && (⟨s1, L, t1, sha body⟩ : PageEntry).summary != "") = false := by
      simp [hs]
    rw [remember_html_hit_stale sha gen _ path body t2 _ hl1 hc2, hsum]
    refine ⟨rfl, ?_⟩
    rw [lookupA_insert_self]
    simp [hs]
  · have hc2 : ((⟨s1, L, t1, sha body⟩ : PageEntry).hash == sha body
        && (⟨s1, L, t1, sha body⟩ : PageEntry).summary != "") = true := by
      simp only [Bool.and_eq_true, bne_iff_ne]
      exact ⟨by simp, hs⟩
    rw [remember_html_hit_fresh sha gen _ path body t2 _ hl1 hc2]
    refine ⟨rfl, ?_⟩
    rw [lookupA_insert_self]
    rfl

/-- Claim C4: remembering the same body for the same path twice under
`text/html` invokes the external summarizer at most once in total: the
second call finds the record written by the first, whose hash is the hash
of the body, makes no summarizer invocation, and keeps the first call's
summary.  The hypothesis on `gen` says a successful summarizer answer is
not pure whitespace (otherwise the stored summary is empty and the source
regenerates it). -/
theorem claim_C4_summarize_once (sha : String → String)
    (gen : String → Except String String) (mem : Memory)
    (path body : String) (t1 t2 : Nat)
    (hgen : ∀ t s, gen t = Except.ok s → pyStrip s ≠ "") :
    (remember_page sha gen mem path body "text/html" t1).2.length +
      (remember_page sha gen
        (remember_page sha gen mem path body "text/html" t1).1
        path body "text/html" t2).2.length ≤ 1 ∧
    (remember_page sha gen
        (remember_page sha gen mem path body "text/html" t1).1
        path body "text/html" t2).2 = [] ∧
    (∃ e, lookupA (remember_page sha gen mem path body "text/html" t1).1 path =
        some e ∧ e.hash = sha body) ∧
    (lookupA (remember_page sha gen
        (remember_page sha gen mem path body "text/html" t1).1
        path body "text/html" t2).1 path).map PageEntry.summary =
      (lookupA (remember_page sha gen mem path body "text/html" t1).1 path).map
        PageEntry.summary := by
  have hgencond : (summarize_page_with_ai gen body).1 = "" → truncatedText body = "" := by
    intro hsz
    by_contra htne
    exact summarize_nonempty gen body hgen htne hsz
  have main : ∀ s1 : String, (s1 = "" → truncatedText body = "") →
      remember_page sha gen mem path body "text/html" t1 =
        (insertOrdered mem path
          ⟨s1, extract_internal_links_from_html body, t1, sha body⟩,
         (remember_page sha gen mem path body "text/html" t1).2) →
      (remember_page sha gen mem path body "text/html" t1).2.length ≤ 1 →
      (remember_page sha gen mem path body "text/html" t1).2.length +
        (remember_page sha gen
          (remember_page sha gen mem path body "text/html" t1).1
          path body "text/html" t2).2.length ≤ 1 ∧
      (remember_page sha gen
          (remember_page sha gen mem path body "text/html" t1).1
          path body "text/html" t2).2 = [] ∧
      (∃ e, lookupA (remember_page sha gen mem path body "text/html" t1).1 path =
          some e ∧ e.hash = sha body) ∧
      (lookupA (remember_page sha gen
          (remember_page sha gen mem path body "text/html" t1).1
          path body "text/html" t2).1 path).map PageEntry.summary =
        (lookupA (remember_page sha gen mem path body "text/html" t1).1 path).map
          PageEntry.summary := by
    intro s1 hs1 hr1 hlen1
    have hsec := remember_second sha gen mem path body t1 t2 s1
      (extract_internal_links_from_html body) hs1
    rw [hr1]
    refine ⟨?_, hsec.1, ⟨_, lookupA_insert_self .., rfl⟩, ?_⟩
    · rw [hsec.1]
      simpa using hlen1
    · rw [hsec.2, lookupA_insert_self]
      rfl
  cases hlk : lookupA mem path with
  | none =>
    have hr1 := remember_html_miss sha gen mem path body t1 hlk
    exact main (summarize_page_with_ai gen body).1 hgencond
      (by rw [hr1]) (by rw [hr1]; exact summarize_calls_le gen body)
  | some e =>
    by_cases hc : (e.hash == sha body && e.summary != "") = true
    · have hr1 := remember_html_hit_fresh sha gen mem path body t1 e hlk hc
      have hes : e.summary ≠ "" := by
        have := (Bool.and_eq_true ..).mp hc
        rw [bne_iff_ne] at this
        exact this.2
      exact main e.summary (fun h => absurd h hes)
        (by rw [hr1]) (by rw [hr1]; simp)
    · have hr1 := remember_html_hit_stale sha gen mem path body t1 e hlk
        (by simpa using hc)
      exact main (summarize_page_with_ai gen body).1 hgencond
        (by rw [hr1]) (by rw [hr1]; exact summarize_calls_le gen body)

/-- Witness for C4: empty store, path `/a`, body `hello`, a summarizer that
answers `A summary.`. -/
theorem claim_C4_witness :
    (remember_page (fun s => s) (fun _ => Except.ok "A summary.") [] "/a" "hello" "text/html" 0).2.length +
      (remember_page (fun s => s) (fun _ => Except.ok "A summary.")
        (remember_page (fun s => s) (fun _ => Except.ok "A summary.") [] "/a" "hello" "text/html" 0).1
        "/a" "hello" "text/html" 1).2.length ≤ 1 ∧
    (remember_page (fun s => s) (fun _ => Except.ok "A summary.")
        (remember_page (fun s => s) (fun _ => Except.ok "A summary.") [] "/a" "hello" "text/html" 0).1
        "/a" "hello" "text/html" 1).2 = [] ∧
    (∃ e, lookupA (remember_page (fun s => s) (fun _ => Except.ok "A summary.") [] "/a" "hello" "text/html" 0).1 "/a" =
        some e ∧ e.hash = (fun s => s) "hello") ∧
    (lookupA (remember_page (fun s => s) (fun _ => Except.ok "A summary.")
        (remember_page (fun s => s) (fun _ => Except.ok "A summary.") [] "/a" "hello" "text/html" 0).1
        "/a" "hello" "text/html" 1).1 "/a").map PageEntry.summary =
      (lookupA (remember_page (fun s => s) (fun _ => Except.ok "A summary.") [] "/a" "hello" "text/html" 0).1 "/a").map
        PageEntry.summary :=
  claim_C4_summarize_once (fun s => s) (fun _ => Except.ok "A summary.") [] "/a" "hello" 0 1
    (fun t s h => by
      injection h with h2
      exact h2 ▸ (by decide))

/-! ### C8: internal-link extraction -/

theorem contains_append_poly {α : Type} [BEq α] [LawfulBEq α]
    (a b : List α) (x : α) :
    (a ++ b).contains x = (a.contains x || b.contains x) := by
  simp [List.contains, List.elem_eq_mem, List.mem_append]

theorem hrefTail_eq : ∀ (after : List Char) (g : List Char → String),
    (match after.drop ((after.takeWhile
        (fun c => !(c == '"' || c == '#' || c == '?'))).length) with
     | '"' :: rem =>
        some (g (after.takeWhile (fun c => !(c == '"' || c == '#' || c == '?'))), rem)
     | _ => none)
    =
    (if decide ((after.takeWhile (fun c => c != '"')).length < after.length)
        && (after.takeWhile (fun c => c != '"')).all
            (fun c => !(c == '#' || c == '?')) then
      some (g (after.takeWhile (fun c => c != '"')),
        after.drop ((after.takeWhile (fun c => c != '"')).length + 1))
    else none) := by
  intro after
  induction after with
  | nil => intro g; rfl
  | cons c cs ih =>
    intro g
    by_cases h1 : c = '"'
    · subst h1
      have hC : (('"' :: cs).takeWhile
          (fun c => !(c == '"' || c == '#' || c == '?'))) = [] := rfl
      have hQ : (('"' :: cs).takeWhile (fun c => c != '"')) = [] := rfl
      rw [hC, hQ]
      have hcond : (decide (([] : List Char).length < ('"' :: cs).length)
          && ([] : List Char).all (fun c => !(c == '#' || c == '?'))) = true := by
        simp
      rw [hcond]
      rfl
    · by_cases h2 : c = '#'
      · subst h2
        have hQ : (('#' :: cs).takeWhile (fun c => c != '"')) =
            '#' :: cs.takeWhile (fun c => c != '"') := rfl
        rw [hQ,
          show (('#' :: cs.takeWhile (fun c => c != '"')).all
            (fun c => !(c == '#' || c == '?'))) = false from rfl,
          Bool.and_false]
        rfl
      · by_cases h3 : c = '?'
        · subst h3
          have hQ : (('?' :: cs).takeWhile (fun c => c != '"')) =
              '?' :: cs.takeWhile (fun c => c != '"') := rfl
          rw [hQ,
            show (('?' :: cs.takeWhile (fun c => c != '"')).all
              (fun c => !(c == '#' || c == '?'))) = false from rfl,
            Bool.and_false]
          rfl
        · have hpC : ((fun c => !(c == '"' || c == '#' || c == '?')) c) = true := by
            simp [h1, h2, h3]
          have hpQ : ((fun c => c != '"') c) = true := by simp [h1]
          have hpH : ((fun c => !(c == '#' || c == '?')) c) = true := by
            simp [h2, h3]
          rw [@List.takeWhile_cons_of_pos Char
              (fun c => !(c == '"' || c == '#' || c == '?')) c cs hpC,
            @List.takeWhile_cons_of_pos Char (fun c => c != '"') c cs hpQ]
          simp only [List.length_cons, List.all_cons, List.drop_succ_cons, hpH,
            Bool.true_and]
          rw [show (decide ((cs.takeWhile (fun c => c != '"')).length + 1 <
              cs.length + 1)) =
            decide ((cs.takeWhile (fun c => c != '"')).length < cs.length) from
            decide_eq_decide.mpr (by omega)]
          exact ih (fun run => g (c :: run))

theorem claimHrefAt_eq (l : List Char) : claimHrefAt l = matchHref l := by
  unfold claimHrefAt matchHref
  by_cases h : leadsWith hrefLit l = true
  · rw [if_pos h, if_pos h]
    exact (hrefTail_eq (l.drop 7) (fun run => ('/' :: run).asString)).symm
  · rw [if_neg h, if_neg h]

theorem claimHrefScanGo_eq : ∀ (fuel : Nat) (l : List Char),
    claimHrefScanGo fuel l = findHrefsGo fuel l := by
  intro fuel
  induction fuel with
  | zero => intro l; rfl
  | succ fuel ih =>
    intro l
    cases l with
    | nil => rfl
    | cons c rest =>
      unfold claimHrefScanGo findHrefsGo
      rw [claimHrefAt_eq (c :: rest)]
      cases hm : matchHref (c :: rest) with
      | none => exact ih rest
      | some tr => exact congrArg (fun ls => tr.1 :: ls) (ih tr.2)

theorem dedupFirst_foldl : ∀ (l acc seen : List String),
    (∀ x, acc.contains x = seen.contains x) →
    l.foldl (fun acc x => if acc.contains x then acc else acc ++ [x]) acc =
      acc ++ dedupSeen l seen := by
  intro l
  induction l with
  | nil => intro acc seen _; simp [dedupSeen]
  | cons y ys ih =>
    intro acc seen h
    rw [List.foldl_cons]
    unfold dedupSeen
    by_cases hc : seen.contains y = true
    · rw [if_pos (by rw [h y]; exact hc), if_pos hc]
      exact ih acc seen h
    · have hc2 : seen.contains y = false := by simpa using hc
      have ha2 : acc.contains y = false := by rw [h y]; exact hc2
      rw [if_neg (by rw [ha2]; simp), if_neg (by rw [hc2]; simp)]
      have hpre : ∀ x, (acc ++ [y]).contains x = (y :: seen).contains x := by
        intro x
        rw [contains_append_poly, h x]
        by_cases hxy : x = y
        · subst hxy
          simp [List.contains, List.elem_eq_mem]
        · simp [List.contains, List.elem_eq_mem, hxy]
      rw [ih (acc ++ [y]) (y :: seen) hpre, List.append_assoc]
      rfl

theorem pyDedup_eq_claimDedupFirst (l : List String) :
    pyDedup l = claimDedupFirst l := by
  unfold pyDedup claimDedupFirst
  have h := dedupFirst_foldl l [] [] (fun _ => rfl)
  simpa using h.symm


theorem toList_asString (l : List Char) : (List.asString l).toList = l := rfl

theorem contains_eq_false_iff {α : Type} [BEq α] [LawfulBEq α]
    (l : List α) (x : α) : l.contains x = false ↔ ¬ x ∈ l := by
  simp [List.contains, List.elem_eq_mem]

theorem dedupSeen_sub : ∀ (l seen : List String) (x : String),
    x ∈ dedupSeen l seen → x ∈ l := by
  intro l
  induction l with
  | nil => intro seen x hx; cases hx
  | cons y ys ih =>
    intro seen x hx
    unfold dedupSeen at hx
    by_cases hc : seen.contains y = true
    · rw [if_pos hc] at hx
      exact List.mem_cons_of_mem y (ih seen x hx)
    · rw [if_neg hc] at hx
      rcases List.mem_cons.mp hx with h | h
      · exact h ▸ List.mem_cons_self y ys
      · exact List.mem_cons_of_mem y (ih (y :: seen) x h)

theorem dedupSeen_nodup : ∀ (l seen : List String),
    (dedupSeen l seen).Nodup ∧ ∀ x ∈ dedupSeen l seen, seen.contains x = false := by
  intro l
  induction l with
  | nil => intro seen; exact ⟨List.nodup_nil, fun x hx => absurd hx (List.not_mem_nil x)⟩
  | cons y ys ih =>
    intro seen
    unfold dedupSeen
    by_cases hc : seen.contains y = true
    · rw [if_pos hc]
      exact ih seen
    · rw [if_neg hc]
      obtain ⟨h1, h2⟩ := ih (y :: seen)
      constructor
      · rw [List.nodup_cons]
        refine ⟨fun hy => ?_, h1⟩
        have := h2 y hy
        rw [contains_eq_false_iff] at this
        exact this (List.mem_cons_self y seen)
      · intro x hx
        rcases List.mem_cons.mp hx with h | h
        · subst h
          simpa using hc
        · have := h2 x h
          rw [contains_eq_false_iff] at this ⊢
          intro hmem
          exact this (List.mem_cons_of_mem y hmem)

theorem matchHref_sound (l : List Char) (t : String) (rem : List Char)
    (h : matchHref l = some (t, rem)) :
    strStarts t "/" = true ∧ containsChar t '"' = false ∧
    containsChar t '#' = false ∧ containsChar t '?' = false := by
  simp only [matchHref] at h
  split at h
  · split at h
    · rename_i heq
      injection h with h1
      have ht : t = ('/' :: (l.drop 7).takeWhile
          (fun c => !(c == '"' || c == '#' || c == '?'))).asString :=
        (congrArg Prod.fst h1).symm
      have hrun : ∀ c ∈ (l.drop 7).takeWhile
          (fun c => !(c == '"' || c == '#' || c == '?')),
          c ≠ '"' ∧ c ≠ '#' ∧ c ≠ '?' := by
        intro c hm
        have hp := List.mem_takeWhile_imp hm
        simp only [Bool.not_eq_true', Bool.or_eq_false_iff, beq_eq_false_iff_ne] at hp
        exact ⟨hp.1.1, hp.1.2, hp.2⟩
      subst ht
      refine ⟨by simp [strStarts, toList_asString, leadsWith], ?_, ?_, ?_⟩
      · unfold containsChar
        rw [toList_asString, contains_eq_false_iff]
        intro hmem
        rcases List.mem_cons.mp hmem with hh | hh
        · cases hh
        · exact (hrun _ hh).1 rfl
      · unfold containsChar
        rw [toList_asString, contains_eq_false_iff]
        intro hmem
        rcases List.mem_cons.mp hmem with hh | hh
        · cases hh
        · exact (hrun _ hh).2.1 rfl
      · unfold containsChar
        rw [toList_asString, contains_eq_false_iff]
        intro hmem
        rcases List.mem_cons.mp hmem with hh | hh
        · cases hh
        · exact (hrun _ hh).2.2 rfl
    · cases h
  · cases h

theorem findHrefsGo_sound : ∀ (fuel : Nat) (l : List Char) (t : String),
    t ∈ findHrefsGo fuel l →
    strStarts t "/" = true ∧ containsChar t '"' = false ∧
    containsChar t '#' = false ∧ containsChar t '?' = false := by
  intro fuel
  induction fuel with
  | zero => intro l t ht; cases ht
  | succ fuel ih =>
    intro l t ht
    cases l with
    | nil => cases ht
    | cons c rest =>
      unfold findHrefsGo at ht
      cases hm : matchHref (c :: rest) with
      | none =>
        rw [hm] at ht
        exact ih rest t ht
      | some tr =>
        rw [hm] at ht
        rcases List.mem_cons.mp ht with h | h
        · exact h ▸ matchHref_sound (c :: rest) tr.1 tr.2 (by rw [hm])
        · exact ih tr.2 t h

/-- Claim C8: link extraction collects exactly the qualifying
`href="/..."` targets of the body — those whose text up to the closing
quote (hence containing no second quote) has no `#` and no `?` — scanned
left to right with each later scan resuming past the previous closing
quote, deduplicated preserving first-seen order (`claimHrefScan` and
`claimDedupFirst` are written from the claim's words); consequently every
returned target begins with `/`, contains no `#`, `?` or quote, and the
result has no duplicates; the concrete body with `href="/about"` and
`href="/about#top"` yields exactly `["/about"]`; and a non-HTML mime never
contributes links: `remember_page` either leaves the store unchanged or
writes a record whose link list is empty. -/
theorem claim_C8_link_extraction :
    (∀ html, extract_internal_links_from_html html =
      claimDedupFirst (claimHrefScan html)) ∧
    extract_internal_links_from_html
      "<a href=\"/about\">x</a><a href=\"/about#top\">y</a>" = ["/about"] ∧
    (∀ html t, t ∈ extract_internal_links_from_html html →
      strStarts t "/" = true ∧ containsChar t '"' = false ∧
      containsChar t '#' = false ∧ containsChar t '?' = false) ∧
    (∀ html, (extract_internal_links_from_html html).Nodup) ∧
    (∀ content_type body sha gen mem path now,
      strStarts (pyLower content_type) "text/html" = false →
      (remember_page sha gen mem path body content_type now).1 = mem ∨
      ∃ e, lookupA (remember_page sha gen mem path body content_type now).1 path =
        some e ∧ e.links = []) := by
  refine ⟨?_, by decide, ?_, ?_, ?_⟩
  · intro html
    unfold extract_internal_links_from_html claimHrefScan
    rw [claimHrefScanGo_eq]
    exact pyDedup_eq_claimDedupFirst _
  · intro html t ht
    exact findHrefsGo_sound html.toList.length html.toList t
      (dedupSeen_sub (findHrefsGo html.toList.length html.toList) [] t ht)
  · intro html
    exact (dedupSeen_nodup (findHrefsGo html.toList.length html.toList) []).1
  · intro content_type body sha gen mem path now hct
    by_cases helig : (!(strStarts (pyLower content_type) "text/"
        || strStarts (pyLower content_type) "application/json")) = true
    · left
      simp only [remember_page, helig, if_true]
    · right
      have helig2 : (!(strStarts (pyLower content_type) "text/"
          || strStarts (pyLower content_type) "application/json")) = false := by
        simpa using helig
      simp only [remember_page, helig2, Bool.false_eq_true, if_false, hct]
      exact ⟨_, lookupA_insert_self .., rfl⟩

/-- Witness for the universally quantified parts of C8, at the mime
`image/png` and a body whose lone href target is extracted. -/
theorem claim_C8_witness :
    ((remember_page (fun _ => "h") (fun _ => Except.ok "s") [] "/p"
        "<a href=\"/q\"></a>" "image/png" 0).1 = [] ∨
      ∃ e, lookupA (remember_page (fun _ => "h") (fun _ => Except.ok "s") [] "/p"
        "<a href=\"/q\"></a>" "image/png" 0).1 "/p" = some e ∧ e.links = []) ∧
    (strStarts "/q" "/" = true ∧ containsChar "/q" '"' = false ∧
      containsChar "/q" '#' = false ∧ containsChar "/q" '?' = false) :=
  ⟨claim_C8_link_extraction.2.2.2.2 "image/png" "<a href=\"/q\"></a>"
      (fun _ => "h") (fun _ => Except.ok "s") [] "/p" 0 (by decide),
   claim_C8_link_extraction.2.2.1 "<a href=\"/q\"></a>" "/q" (by decide)⟩

/-! ### C9: POST requests bypass the response cache -/

/-- Claim C9: a POST request neither consults nor populates the response
cache: the cache coming out of the handler is the cache that went in, and
the response and image cache are identical no matter what the response
cache contains. -/
theorem claim_C9_post_bypasses_cache (url_path query : String)
    (cache cache2 : Cache) (image_cache : ImageCache)
    (disk : String → Option (List Nat)) (gen : Except String (List String))
    (png : List Nat × Nat) :
    (handle_request .POST url_path query cache image_cache disk gen png).2.1 = cache ∧
    ((handle_request .POST url_path query cache image_cache disk gen png).1,
      (handle_request .POST url_path query cache image_cache disk gen png).2.2) =
    ((handle_request .POST url_path query cache2 image_cache disk gen png).1,
      (handle_request .POST url_path query cache2 image_cache disk gen png).2.2) := by
  unfold handle_request
  simp only [show (Method.POST == Method.GET) = false from rfl, Bool.false_eq_true,
    if_false]
  refine ⟨?_, ?_⟩ <;> (repeat' split) <;> simp_all

/-! ### C10: cached GET responses are served with status 200 -/

/-- Claim C10: a GET request whose key is in the response cache is answered
straight from the cache with HTTP status 200 (the Starlette default, since
the cache stores only mime and body), leaving both caches untouched.  The
`favicon.ico` guard sits before the cache check, but no handler run can
cache that path, since the guard also sits before both cache writes. -/
theorem claim_C10_cache_hit_status_200 (url_path query ct body : String)
    (cache : Cache) (image_cache : ImageCache)
    (disk : String → Option (List Nat)) (gen : Except String (List String))
    (png : List Nat × Nat)
    (hfav : url_path ≠ "favicon.ico")
    (hhit : lookupA cache (url_path ++ "?" ++ query) = some (ct, body)) :
    handle_request .GET url_path query cache image_cache disk gen png =
      (.response body ct 200, cache, image_cache) := by
  have hf : (url_path == "favicon.ico") = false := by simpa using hfav
  unfold handle_request
  simp only [hf, Bool.false_eq_true, if_false,
    show (Method.GET == Method.GET) = true from rfl, if_true, hhit]

/-- Witness for C10 at a one-entry cache. -/
theorem claim_C10_witness :
    handle_request .GET "p" "" [("p?", ("text/html", "hi"))] []
        (fun _ => none) (Except.ok []) ([], 0) =
      (.response "hi" "text/html" 200, [("p?", ("text/html", "hi"))], []) :=
  claim_C10_cache_hit_status_200 "p" "" "text/html" "hi"
    [("p?", ("text/html", "hi"))] [] (fun _ => none) (Except.ok []) ([], 0)
    (by decide) (by decide)

/-! ### C2: buffering policy of the handler -/

/-- Claim C2 fails on the code: for a non-JSON, non-XML mime the handler
does not stream fragments to the client — it drains the whole body into a
buffer and returns one complete `Response` (the source comments this with
"Buffer the entire response first for reliable caching").  Also the JSON
side of the classification is a prefix/suffix test, not the substring
match the claim describes: `text/json5` contains `json` but is classified
unstructured. -/
theorem claim_C2_counterexample :
    (handle_request .GET "page" "" [] [] (fun _ => none)
        (Except.ok ["200 text/html\nHello ", "world"]) ([], 0)).1 =
      AppResponse.response "Hello world" "text/html; charset=utf-8" 200 ∧
    AppResponse.isStreaming
      (handle_request .GET "page" "" [] [] (fun _ => none)
        (Except.ok ["200 text/html\nHello ", "world"]) ([], 0)).1 = false ∧
    is_structured_mime "text/json5" = false ∧
    claim_structured_mime "text/json5" = true := by
  refine ⟨by decide, by decide, by decide, by decide⟩

/-- Claim C2 as amended: for every request that reaches generation and
every resolved mime — structured (prefix `application/json` or `text/xml`,
suffix `json` or `xml`, or containing `xml`) or not — the handler fully
drains the demultiplexed body into a single string and responds with one
complete, non-streaming `Response` carrying the resolved status and mime;
only the `/random` route streams. -/
theorem claim_C2_amended (method : Method) (url_path query : String)
    (cache : Cache) (image_cache : ImageCache)
    (disk : String → Option (List Nat)) (chunks : List String)
    (png : List Nat × Nat)
    (hfav : url_path ≠ "favicon.ico")
    (hpng : strEnds (pyLower url_path) ".png" = false)
    (hmiss : method = .GET → lookupA cache (url_path ++ "?" ++ query) = none) :
    (handle_request method url_path query cache image_cache disk
        (Except.ok chunks) png).1 =
      .response (joinAll (stream_demux chunks).2.2) (stream_demux chunks).2.1
        (stream_demux chunks).1 ∧
    AppResponse.isStreaming
      (handle_request method url_path query cache image_cache disk
        (Except.ok chunks) png).1 = false := by
  have hf : (url_path == "favicon.ico") = false := by simpa using hfav
  have hlk : (if method == Method.GET
      then lookupA cache (url_path ++ "?" ++ query) else none) = none := by
    cases method
    · simp only [show (Method.GET == Method.GET) = true from rfl, if_true]
      exact hmiss rfl
    · rfl
  unfold handle_request
  simp only [hf, Bool.false_eq_true, if_false, hlk, hpng]
  by_cases hs : is_structured_mime (stream_demux chunks).2.1 = true
  · simp only [hs, if_true]
    exact ⟨trivial, rfl⟩
  · simp only [hs, Bool.false_eq_true, if_false]
    exact ⟨trivial, rfl⟩

/-- Witness for the amended C2 on a POST request with an HTML stream. -/
theorem claim_C2_amended_witness :
    (handle_request .POST "x" "" [] [] (fun _ => none)
        (Except.ok ["a\nb"]) ([], 0)).1 =
      .response (joinAll (stream_demux ["a\nb"]).2.2)
        (stream_demux ["a\nb"]).2.1 (stream_demux ["a\nb"]).1 ∧
    AppResponse.isStreaming
      (handle_request .POST "x" "" [] [] (fun _ => none)
        (Except.ok ["a\nb"]) ([], 0)).1 = false :=
  claim_C2_amended .POST "x" "" [] [] (fun _ => none) ["a\nb"] ([], 0)
    (by decide) (by decide) (fun h => nomatch h)

/-! ### C1: relatedness scoring -/

theorem getCnt_incr (d : List (String × Nat)) (l k : String) :
    getCnt (incr d l) k = getCnt d k + (if k = l then 1 else 0) := by
  unfold incr getCnt
  rw [lookupA_insertOrdered]
  by_cases h : k = l
  · simp [h]
  · simp [h]

theorem countOcc_cons (k x : String) (xs : List String) :
    countOcc k (x :: xs) = countOcc k xs + (if k = x then 1 else 0) := by
  unfold countOcc
  simp only [List.filter_cons]
  by_cases h : (x == k) = true
  · rw [if_pos h, if_pos (beq_iff_eq.mp h).symm]
    simp
  · have h2 : ¬ k = x := fun he => h (by simp [he])
    rw [if_neg h, if_neg h2]
    simp

theorem getCnt_links_foldl : ∀ (links : List String) (d : List (String × Nat))
    (k : String), getCnt (links.foldl incr d) k = getCnt d k + countOcc k links := by
  intro links
  induction links with
  | nil => intro d k; simp [countOcc]
  | cons x xs ih =>
    intro d k
    rw [List.foldl_cons, ih, getCnt_incr, countOcc_cons]
    omega

theorem getCnt_buildBacklinks (mem : Memory) (k : String) :
    getCnt (buildBacklinks mem) k = countOcc k (allLinks mem) := by
  have key : ∀ (ms : Memory) (d : List (String × Nat)),
      getCnt (ms.foldl (fun d pe => pe.2.links.foldl incr d) d) k =
        getCnt d k + countOcc k (allLinks ms) := by
    intro ms
    induction ms with
    | nil => intro d; simp [allLinks, countOcc]
    | cons pe rest ih =>
      intro d
      rw [List.foldl_cons, ih, getCnt_links_foldl]
      have hsplit : countOcc k (allLinks (pe :: rest)) =
          countOcc k pe.2.links + countOcc k (allLinks rest) := by
        unfold allLinks countOcc
        simp [List.filter_append]
      rw [hsplit]
      omega
  have := key mem []
  unfold buildBacklinks
  rw [this]
  simp [getCnt, lookupA]

theorem insDesc_map {α β : Type} (f : α → β) (kA : α → ℚ) (kB : β → ℚ)
    (hk : ∀ a, kB (f a) = kA a) (x : α) :
    ∀ l : List α, insDesc kB (f x) (l.map f) = (insDesc kA x l).map f := by
  intro l
  induction l with
  | nil => rfl
  | cons y ys ih =>
    simp only [List.map_cons, insDesc, hk]
    by_cases h : kA x ≤ kA y
    · rw [if_pos h, if_pos h, List.map_cons, ih]
    · rw [if_neg h, if_neg h, List.map_cons, List.map_cons]

theorem sortDesc_foldl_map {α β : Type} (f : α → β) (kA : α → ℚ) (kB : β → ℚ)
    (hk : ∀ a, kB (f a) = kA a) :
    ∀ (l acc : List α),
      (l.map f).foldl (fun a y => insDesc kB y a) (acc.map f) =
        (l.foldl (fun a x => insDesc kA x a) acc).map f := by
  intro l
  induction l with
  | nil => intro acc; rfl
  | cons x xs ih =>
    intro acc
    simp only [List.map_cons, List.foldl_cons]
    rw [insDesc_map f kA kB hk x acc, ih (insDesc kA x acc)]

theorem sortDesc_map {α β : Type} (f : α → β) (kA : α → ℚ) (kB : β → ℚ)
    (hk : ∀ a, kB (f a) = kA a) (l : List α) :
    sortDesc kB (l.map f) = (sortDesc kA l).map f := by
  unfold sortDesc
  exact sortDesc_foldl_map f kA kB hk l []

theorem mem_insDesc {α : Type} (key : α → ℚ) (x a : α) :
    ∀ l : List α, a ∈ insDesc key x l → a = x ∨ a ∈ l := by
  intro l
  induction l with
  | nil =>
    intro h
    simp only [insDesc] at h
    exact Or.inl (List.mem_singleton.mp h)
  | cons y ys ih =>
    intro h
    unfold insDesc at h
    by_cases hc : key x ≤ key y
    · rw [if_pos hc] at h
      rcases List.mem_cons.mp h with h | h
      · exact Or.inr (h ▸ List.mem_cons_self y ys)
      · rcases ih h with h | h
        · exact Or.inl h
        · exact Or.inr (List.mem_cons_of_mem y h)
    · rw [if_neg hc] at h
      rcases List.mem_cons.mp h with h | h
      · exact Or.inl h
      · exact Or.inr h

theorem mem_sortDesc_foldl {α : Type} (key : α → ℚ) :
    ∀ (l acc : List α) (a : α),
      a ∈ l.foldl (fun ac x => insDesc key x ac) acc → a ∈ acc ∨ a ∈ l := by
  intro l
  induction l with
  | nil => intro acc a h; exact Or.inl h
  | cons x xs ih =>
    intro acc a h
    rw [List.foldl_cons] at h
    rcases ih (insDesc key x acc) a h with h | h
    · rcases mem_insDesc key x a acc h with h | h
      · exact Or.inr (h ▸ List.mem_cons_self x xs)
      · exact Or.inl h
    · exact Or.inr (List.mem_cons_of_mem x h)

theorem mem_sortDesc {α : Type} (key : α → ℚ) (l : List α) (a : α)
    (h : a ∈ sortDesc key l) : a ∈ l := by
  rcases mem_sortDesc_foldl key l [] a h with h | h
  · cases h
  · exact h

theorem related_filterMap_eq (cs : String → ℚ) (url_path : String) :
    ∀ l : Memory,
      l.filterMap (fun pe =>
        if pe.1 == "/" || pe.1 == url_path then none
        else if 0 < cs pe.1 then some (cs pe.1, pe.1) else none)
      = ((l.filter (fun pe =>
            pe.1 != "/" && pe.1 != url_path && decide (0 < cs pe.1))).map
          (fun pe => (cs pe.1, pe.1, pe.2))).map (fun t => (t.1, t.2.1)) := by
  intro l
  induction l with
  | nil => rfl
  | cons pe rest ih =>
    simp only [List.filterMap_cons, List.filter_cons]
    by_cases h1 : (pe.1 == "/" || pe.1 == url_path) = true
    · have hg : (pe.1 != "/" && pe.1 != url_path && decide (0 < cs pe.1)) = false := by
        rcases Bool.or_eq_true_iff.mp h1 with h | h
        · simp [bne, h]
        · simp [bne, h]
      simp only [h1, if_true, hg, Bool.false_eq_true, if_false]
      exact ih
    · have h1f : (pe.1 == "/" || pe.1 == url_path) = false := by simpa using h1
      rcases Bool.or_eq_false_iff.mp h1f with ⟨ha, hb⟩
      simp only [h1f, Bool.false_eq_true, if_false]
      by_cases h2 : 0 < cs pe.1
      · have hg : (pe.1 != "/" && pe.1 != url_path && decide (0 < cs pe.1)) = true := by
          simp [bne, ha, hb, h2]
        rw [if_pos h2]
        simp only [hg, if_true, List.map_cons]
        rw [ih]
      · have hg : (pe.1 != "/" && pe.1 != url_path && decide (0 < cs pe.1)) = false := by
          simp [bne, ha, hb, h2]
        rw [if_neg h2]
        simp only [hg, Bool.false_eq_true, if_false]
        exact ih

theorem related_pipeline (cs : String → ℚ) (url_path : String) (limit : Nat)
    (mem : Memory) (hnd : (mem.map Prod.fst).Nodup) :
    ((sortDesc (fun x => x.1)
        (mem.filterMap (fun pe =>
          if pe.1 == "/" || pe.1 == url_path then none
          else if 0 < cs pe.1 then some (cs pe.1, pe.1) else none))).take limit).map
      (fun sp => (sp.2, (lookupA mem sp.2).getD defaultEntry))
    =
    ((sortDesc (fun t => t.1)
        ((mem.filter (fun pe =>
            pe.1 != "/" && pe.1 != url_path && decide (0 < cs pe.1))).map
          (fun pe => (cs pe.1, pe.1, pe.2)))).take limit).map
      (fun t => (t.2.1, t.2.2)) := by
  rw [related_filterMap_eq cs url_path mem]
  rw [sortDesc_map (fun t : ℚ × String × PageEntry => (t.1, t.2.1))
    (fun t => t.1) (fun x => x.1) (fun t => rfl)]
  rw [← List.map_take, List.map_map]
  apply List.map_congr_left
  intro t ht
  have htm : t ∈ sortDesc (fun t : ℚ × String × PageEntry => t.1)
      ((mem.filter (fun pe =>
          pe.1 != "/" && pe.1 != url_path && decide (0 < cs pe.1))).map
        (fun pe => (cs pe.1, pe.1, pe.2))) := List.take_subset limit _ ht
  have htm2 := mem_sortDesc _ _ _ htm
  rcases List.mem_map.mp htm2 with ⟨pe, hpe, hpet⟩
  have hmem : pe ∈ mem := List.mem_of_mem_filter hpe
  have hlook : lookupA mem pe.1 = some pe.2 :=
    lookupA_of_mem_nodup mem pe.1 pe.2 (by simpa using hmem) hnd
  subst hpet
  simp [Function.comp, hlook]

/-- Claim C1: `get_related_memory` computes exactly the specification's
relatedness: every stored candidate other than `/` and the query path is
scored as the token-intersection count of the stop-filtered query tokens
with the candidate's tokens plus half the number of stored links equal to
the query path (a constant per query); exactly the positive-score
candidates are kept, sorted descending by score (stable), and the first
`limit` (path, record) pairs are returned. -/
theorem claim_C1_relatedness (mem : Memory) (url_path : String) (limit : Nat)
    (hnd : (mem.map Prod.fst).Nodup) :
    get_related_memory mem url_path limit = relatedSpec mem url_path limit := by
  by_cases hm : mem.isEmpty = true
  · have hm2 : mem = [] := List.isEmpty_iff.mp hm
    subst hm2
    simp [get_related_memory, relatedSpec, sortDesc]
  · have hm2 : mem.isEmpty = false := by simpa using hm
    unfold get_related_memory relatedSpec claimScore
    simp only [hm2, Bool.false_eq_true, if_false, getCnt_buildBacklinks]
    exact related_pipeline
      (fun p => ((((queryTokens url_path).filter
          (fun t => (pathTokens p).contains t)).length : Nat) : ℚ)
        + (1 / 2 : ℚ) * ((countOcc url_path (allLinks mem) : Nat) : ℚ))
      url_path limit mem hnd

/-- Witness for C1 on a two-page store. -/
theorem claim_C1_witness :
    get_related_memory
      [("/cat", ⟨"s1", ["/dog"], 0, "h1"⟩), ("/dog", ⟨"s2", [], 0, "h2"⟩)]
      "/dog-facts" 5 =
    relatedSpec
      [("/cat", ⟨"s1", ["/dog"], 0, "h1"⟩), ("/dog", ⟨"s2", [], 0, "h2"⟩)]
      "/dog-facts" 5 :=
  claim_C1_relatedness
    [("/cat", ⟨"s1", ["/dog"], 0, "h1"⟩), ("/dog", ⟨"s2", [], 0, "h2"⟩)]
    "/dog-facts" 5 (by decide)

end UniversalAPI
